import Mathlib

/-!
Shallow embedding of the hsh shader generator
(`src/clang/lib/Hsh/HshGenerator.cpp`) sufficient to settle the frozen
claims: stage inference in `ValueTracer`, inter-stage promotion in
`StagesBuilder`, interface-record field management, resource tables
(samplers, textures), per-stage statement lists with reference counts,
parameter validation in `GenerateConsumer::run`, and the process-wide
binary deduplication.
-/

namespace Hsh

/-- `enum HshStage : int` with `HshNoStage = -1`, `HshHostStage = 0`, ...,
`HshFragmentStage = 5`, `HshMaxStage = 6`.  The C++ compares and takes
`std::max` over the underlying `int`, so the embedding uses `Int`. -/
abbrev HshStage := Int

def HshNoStage : HshStage := -1
def HshHostStage : HshStage := 0
def HshVertexStage : HshStage := 1
def HshControlStage : HshStage := 2
def HshEvaluationStage : HshStage := 3
def HshGeometryStage : HshStage := 4
def HshFragmentStage : HshStage := 5
def HshMaxStage : HshStage := 6

def HSH_MAX_VERTEX_BUFFERS : Nat := 32
def HSH_MAX_TEXTURES : Nat := 32
def HSH_MAX_SAMPLERS : Nat := 32
def HSH_MAX_COLOR_TARGETS : Nat := 8

/-- `ValueTracer::GetInterpolated`:
`Stage != HshHostStage && Stage < Target`. -/
def GetInterpolated (Target Stage : HshStage) : Bool :=
  Stage ≠ HshHostStage && Stage < Target

/-- The clang `BinaryOperatorKind` opcodes named in
`ValueTracer::VisitBinaryOperator`; every opcode the switch's `default:`
arm covers is represented by `BO_Other` carrying its spelling. -/
inductive BinaryOpcode where
  | BO_Add | BO_Sub | BO_Mul
  | BO_AddAssign | BO_SubAssign | BO_MulAssign
  | BO_Assign
  | BO_Div | BO_DivAssign
  | BO_Other (spelling : String)
  deriving DecidableEq, Repr

/-- Stage computation of `ValueTracer::VisitBinaryOperator` (lines
2583-2624): start from `std::max(LStage, RStage)`; when either operand is
interpolated, add/sub/mul, their compound forms and plain assignment keep
that stage, divide (and `/=`) promotes to `Target` exactly when the RHS
is interpolated, and every other opcode promotes to `Target`. -/
def binaryOperatorStage (Target : HshStage) (op : BinaryOpcode)
    (LStage RStage : HshStage) : HshStage :=
  let Stage := max LStage RStage
  let LHSInterpolated := GetInterpolated Target LStage
  let RHSInterpolated := GetInterpolated Target RStage
  if LHSInterpolated || RHSInterpolated then
    match op with
    | .BO_Add | .BO_Sub | .BO_Mul
    | .BO_AddAssign | .BO_SubAssign | .BO_MulAssign
    | .BO_Assign => Stage
    | .BO_Div | .BO_DivAssign => if RHSInterpolated then Target else Stage
    | .BO_Other _ => Target
  else Stage

/-- The clang `OverloadedOperatorKind` spellings named in
`ValueTracer::VisitCXXOperatorCallExpr`; the switch's `default:` arm is
`OO_Other`. -/
inductive OverloadedOperator where
  | OO_Plus | OO_Minus | OO_Star
  | OO_PlusEqual | OO_MinusEqual | OO_StarEqual
  | OO_Equal
  | OO_Slash | OO_SlashEqual
  | OO_Other (spelling : String)
  deriving DecidableEq, Repr

/-- Stage computation of `ValueTracer::VisitCXXOperatorCallExpr` (lines
2738-2773) for a two-argument operator call: `Arguments->Stage` is the max
of the per-argument stages (computed by `DoVisitExprRange`), then the same
promotion switch as `VisitBinaryOperator` runs over the overloaded-operator
spelling. -/
def operatorCallStage (Target : HshStage) (op : OverloadedOperator)
    (LStage RStage : HshStage) : HshStage :=
  let Stage := max LStage RStage
  let LHSInterpolated := GetInterpolated Target LStage
  let RHSInterpolated := GetInterpolated Target RStage
  if LHSInterpolated || RHSInterpolated then
    match op with
    | .OO_Plus | .OO_Minus | .OO_Star
    | .OO_PlusEqual | .OO_MinusEqual | .OO_StarEqual
    | .OO_Equal => Stage
    | .OO_Slash | .OO_SlashEqual => if RHSInterpolated then Target else Stage
    | .OO_Other _ => Target
  else Stage

/-- The opcodes the promotion switch leaves at the operand maximum. -/
def keepsStage : BinaryOpcode → Bool
  | .BO_Add | .BO_Sub | .BO_Mul
  | .BO_AddAssign | .BO_SubAssign | .BO_MulAssign
  | .BO_Assign => true
  | _ => false

def keepsStageOO : OverloadedOperator → Bool
  | .OO_Plus | .OO_Minus | .OO_Star
  | .OO_PlusEqual | .OO_MinusEqual | .OO_StarEqual
  | .OO_Equal => true
  | _ => false

def isDivOp : BinaryOpcode → Bool
  | .BO_Div | .BO_DivAssign => true
  | _ => false

def isDivOpOO : OverloadedOperator → Bool
  | .OO_Slash | .OO_SlashEqual => true
  | _ => false

/-- Expression trees as `InterfaceRecord` keys.  In clang the key is the
`Expr *` compared by `InterfaceRecord::isSameComparisonOperand` (pointer
equality or `Expr::isSameComparisonOperand`, i.e. structural equality of
the tree); here expressions are values, so structural equality is `=`.
`interfaceField host D producer f` is the `MemberExpr` built by
`createFieldReference`: a reference through the record's `Producer` or
`Consumer` variable (identified by which record array, the consumer-stage
index `D`, and the flag) to the field with creation index `f`. -/
inductive ExprM where
  | declRef (name : String)
  | intLit (v : Int)
  | binOp (op : BinaryOpcode) (l r : ExprM)
  | member (base : ExprM) (field : String)
  | interfaceField (host : Bool) (D : HshStage) (producer : Bool) (f : Nat)
  deriving DecidableEq, Repr

/-- Statements held in the per-stage statement lists: the synthesized
`BinaryOperator(..., BO_Assign, ...)` producer assignments, lifted
`DeclStmt`s, and anything else (identified by an id). -/
inductive StmtM where
  | assign (lhs rhs : ExprM)
  | declStmt (var : String) (ini : Option ExprM)
  | other (id : Nat)
  deriving DecidableEq, Repr

def StmtM.isDeclStmt : StmtM → Bool
  | .declStmt _ _ => true
  | _ => false

/-- `InterfaceRecord`: consumer/producer record between two stages.
`Fields` is the `SmallVector<std::pair<Expr *, FieldDecl *>, 8>`; a
`FieldDecl` is identified by its creation index (its name `_SD<n>` is
determined by `SStage`, `DStage` and that index). -/
structure InterfaceRecord where
  SStage : HshStage := HshNoStage
  DStage : HshStage := HshNoStage
  Fields : List (ExprM × Nat) := []
  deriving DecidableEq, Repr

/-- `InterfaceRecord::getFieldForExpr`: scan `Fields` for a structurally
equal expression; on a hit return that field (or `none` when
`IgnoreExisting`); on a miss create the next field and append the pair. -/
def InterfaceRecord.getFieldForExpr (R : InterfaceRecord) (E : ExprM)
    (IgnoreExisting : Bool := false) : Option Nat × InterfaceRecord :=
  match R.Fields.find? (fun P => P.1 == E) with
  | some P => (if IgnoreExisting then none else some P.2, R)
  | none =>
      let FD := R.Fields.length
      (some FD, { R with Fields := R.Fields ++ [(E, FD)] })

/-- `InterfaceRecord::createFieldReference` specialised to the producer
variable (`createProducerFieldReference` passes `IgnoreExisting = true`).
`host` records which of the two record arrays the record lives in. -/
def InterfaceRecord.createProducerFieldReference (R : InterfaceRecord)
    (host : Bool) (D : HshStage) (E : ExprM) : Option ExprM × InterfaceRecord :=
  match R.getFieldForExpr E true with
  | (none, R') => (none, R')
  | (some f, R') => (some (.interfaceField host D true f), R')

/-- `InterfaceRecord::createFieldReference` through the consumer variable
(`createConsumerFieldReference`, `IgnoreExisting = false`); always yields
a member expression. -/
def InterfaceRecord.createConsumerFieldReference (R : InterfaceRecord)
    (host : Bool) (D : HshStage) (E : ExprM) : ExprM × InterfaceRecord :=
  match R.getFieldForExpr E false with
  | (some f, R') => (.interfaceField host D false f, R')
  | (none, R') => (.intLit 0, R')  -- unreachable: IgnoreExisting is false

/-- One entry of `StageStmtList`: the statement together with its slot of
the parallel `StmtDeclRefCount` vector (reference count and originating
`VarDecl`, `none` for the default `OrigDecl = nullptr`).  The two C++
vectors grow and shrink in lockstep, so they are zipped here. -/
structure StmtEntry where
  stmt : StmtM
  refCount : Nat
  origDecl : Option String
  deriving DecidableEq, Repr

/-- `StagesBuilder` state relevant to the claims: the stage-use bitmask,
both interface-record arrays (indexed by consumer stage), and the
per-stage statement lists. -/
structure StagesBuilder where
  UseStages : Nat
  HostToStageRecords : HshStage → InterfaceRecord
  InterStageRecords : HshStage → InterfaceRecord
  StageStmts : HshStage → List StmtEntry

/-- The `StagesBuilder` constructor: for every active destination stage
`D ∈ [Vertex, MaxStage)` initialize `HostToStageRecords[D]` with
`(Host, D)`; for `D ∈ [Control, MaxStage)` initialize
`InterStageRecords[D]` with `(S, D)` where `S` walks the previously seen
active stage starting from Vertex. -/
def initHostRecords (UseStages : Nat) : Nat → (HshStage → InterfaceRecord) →
    (HshStage → InterfaceRecord)
  | 0, recs => recs
  | n + 1, recs =>
      let D : Int := 6 - (n + 1 : Nat)
      let recs' :=
        if UseStages.testBit D.toNat then
          fun i => if i = D then
              { SStage := HshHostStage, DStage := D, Fields := [] }
            else recs i
        else recs
      initHostRecords UseStages n recs'

def initInterRecords (UseStages : Nat) : Nat → HshStage →
    (HshStage → InterfaceRecord) → (HshStage → InterfaceRecord)
  | 0, _, recs => recs
  | n + 1, S, recs =>
      let D : Int := 6 - (n + 1 : Nat)
      if UseStages.testBit D.toNat then
        let recs' := fun i => if i = D then
            { SStage := S, DStage := D, Fields := [] }
          else recs i
        initInterRecords UseStages n D recs'
      else
        initInterRecords UseStages n S recs

def StagesBuilder.init (UseStages : Nat) : StagesBuilder where
  UseStages := UseStages
  HostToStageRecords := initHostRecords UseStages 5 (fun _ => {})
  InterStageRecords := initInterRecords UseStages 4 HshVertexStage (fun _ => {})
  StageStmts := fun _ => []

/-- The scan of `StagesBuilder::addStageStmt` over a `DeclStmt`: find the
first list position holding a `DeclStmt` whose parallel ref-count entry
names `OrigDecl`, and increment that reference count; `none` when no such
entry exists. -/
def bumpDeclRef (OrigDecl : Option String) :
    List StmtEntry → Option (List StmtEntry)
  | [] => none
  | e :: rest =>
      if e.stmt.isDeclStmt && e.origDecl == OrigDecl then
        some ({ e with refCount := e.refCount + 1 } :: rest)
      else
        (bumpDeclRef OrigDecl rest).map (e :: ·)

/-- The scan of `StagesBuilder::liftDeclStmt` over the origin stage: find
the first `DeclStmt` entry for `OrigDecl`, decrement its count, and erase
the entry (from both parallel vectors) exactly when the count reaches
zero; the loop `break`s after the first match. -/
def dropDeclRef (OrigDecl : Option String) :
    List StmtEntry → List StmtEntry
  | [] => []
  | e :: rest =>
      if e.stmt.isDeclStmt && e.origDecl == OrigDecl then
        if e.refCount - 1 = 0 then rest
        else { e with refCount := e.refCount - 1 } :: rest
      else e :: dropDeclRef OrigDecl rest

/-- `StagesBuilder::addStageStmt`: a `DeclStmt` already recorded for the
same originating declaration only has its reference count bumped; any
other statement already present (pointer equality in C++, value equality
here) is skipped; otherwise the statement is appended with count 1. -/
def StagesBuilder.addStageStmt (b : StagesBuilder) (S : StmtM)
    (Stage : HshStage) (OrigDecl : Option String := none) : StagesBuilder :=
  let stmts := b.StageStmts Stage
  let stmts' :=
    if S.isDeclStmt then
      match bumpDeclRef OrigDecl stmts with
      | some upd => upd
      | none => stmts ++ [⟨S, 1, OrigDecl⟩]
    else
      if stmts.any (fun e => e.stmt == S) then stmts
      else stmts ++ [⟨S, 1, OrigDecl⟩]
  { b with StageStmts := fun i => if i = Stage then stmts' else b.StageStmts i }

/-- `StagesBuilder::liftDeclStmt`: add the declaration to the destination
stage (bumping its count if already there), then decrement its count in
the origin stage, erasing it there exactly when the count hits zero. -/
def StagesBuilder.liftDeclStmt (b : StagesBuilder) (DS : StmtM)
    (F T : HshStage) (OrigDecl : Option String) : StagesBuilder :=
  let b1 := b.addStageStmt DS T OrigDecl
  { b1 with StageStmts := fun i =>
      if i = F then dropDeclRef OrigDecl (b1.StageStmts F)
      else b1.StageStmts i }

/-- Store back a mutated `InterStageRecords[d]` (the C++ mutates the
array element in place through a reference). -/
def setInter (b : StagesBuilder) (d : HshStage) (R : InterfaceRecord) :
    StagesBuilder :=
  { b with InterStageRecords := fun i =>
      if i = d then R else b.InterStageRecords i }

/-- Store back a mutated `HostToStageRecords[d]`. -/
def setHost (b : StagesBuilder) (d : HshStage) (R : InterfaceRecord) :
    StagesBuilder :=
  { b with HostToStageRecords := fun i =>
      if i = d then R else b.HostToStageRecords i }

/-- One guarded iteration body of the relay loop in
`StagesBuilder::VisitExpr`: request (creating at most once) the producer
field for `E` in `InterStageRecords[D]`; when a fresh field was created,
append in stage `S` the assignment of `E` (first hop) or of the previous
record's consumer field (later hops) into that producer field. -/
def relayStep (b : StagesBuilder) (E : ExprM) (F S D : HshStage) :
    StagesBuilder :=
  match (b.InterStageRecords D).createProducerFieldReference false D E with
  | (some P, DRec') =>
      let b1 := setInter b D DRec'
      if S = F then
        b1.addStageStmt (.assign P E) S
      else
        let cs := (b1.InterStageRecords S).createConsumerFieldReference
          false S E
        (setInter b1 S cs.2).addStageStmt (.assign P cs.1) S
  | (none, DRec') => setInter b D DRec'

/-- The relay loop `for (int D = From + 1, S = From; D <= To; ++D)` of
`StagesBuilder::VisitExpr`, with `fuel = (To - From).toNat` remaining
iterations: stages whose `UseStages` bit is clear are skipped without
advancing `S`. -/
def relaySteps (b : StagesBuilder) (E : ExprM) (F : HshStage) :
    HshStage → HshStage → Nat → StagesBuilder
  | _, _, 0 => b
  | S, D, n + 1 =>
      if b.UseStages.testBit D.toNat then
        relaySteps (relayStep b E F S D) E F D (D + 1) n
      else
        relaySteps b E F S (D + 1) n

/-- `StagesBuilder::VisitExpr` (lines 2092-2125), the base case of
`createInterStageReferenceExpr`: identical or unbound stages return the
expression unchanged; a Host origin produces a single producer assignment
into `HostToStageRecords[To]` appended to the Host statement list; any
other origin runs the per-stage relay loop; finally the expression is
replaced by a consumer field reference of the record for `To`. -/
def StagesBuilder.visitExpr (b : StagesBuilder) (E : ExprM)
    (F T : HshStage) : ExprM × StagesBuilder :=
  if F = T ∨ F = HshNoStage ∨ T = HshNoStage then (E, b)
  else
    let b1 :=
      if F ≠ HshHostStage then
        relaySteps b E F F (F + 1) (T - F).toNat
      else
        match (b.HostToStageRecords T).createProducerFieldReference true T E with
        | (some P, R') => (setHost b T R').addStageStmt (.assign P E) F
        | (none, R') => setHost b T R'
    if F = HshHostStage then
      let cs := (b1.HostToStageRecords T).createConsumerFieldReference true T E
      (cs.1, setHost b1 T cs.2)
    else
      let cs := (b1.InterStageRecords T).createConsumerFieldReference false T E
      (cs.1, setInter b1 T cs.2)

/-- The consecutive pairs of active stages the relay loop walks: `(S, D)`
for each `D` with its `UseStages` bit set, `S` being the previous such
stage (initially `From`). -/
def chainPairs (mask : Nat) : HshStage → HshStage → Nat →
    List (HshStage × HshStage)
  | _, _, 0 => []
  | S, D, n + 1 =>
      if mask.testBit D.toNat then (S, D) :: chainPairs mask D (D + 1) n
      else chainPairs mask S (D + 1) n

/-- The active stages the relay loop visits, with the start stage in
front: `S :: {d ∈ [D, D + n) | mask bit d set}`. -/
def activeFrom (mask : Nat) : HshStage → HshStage → Nat → List HshStage
  | S, _, 0 => [S]
  | S, D, n + 1 =>
      if mask.testBit D.toNat then S :: activeFrom mask D (D + 1) n
      else activeFrom mask S (D + 1) n

/-- `SamplerConfig`: the compile-time-constant `{filter, wrap}` pair
validated from the sampler literal. -/
structure SamplerConfig where
  filter : Nat
  wrap : Nat
  deriving DecidableEq, Repr

/-- `SamplerRecord`: deduplicated configuration plus stage-usage mask. -/
structure SamplerRecord where
  Config : SamplerConfig
  UseStages : Nat
  deriving DecidableEq, Repr

/-- A recorded texture-sample call: the call site id, the texture index,
and the index of its `SamplerRecord` (`Search - Samplers.begin()`). -/
structure SampleCall where
  callId : Nat
  Index : Nat
  SamplerIndex : Nat
  deriving DecidableEq, Repr

/-- The sampler-table core of `StagesBuilder::registerSampleCall` (lines
2283-2320), after the call expression's receiver and constant sampler
argument have validated: search `Samplers` for an equal `Config`; if
absent, report a fatal overflow when the table already holds
`HSH_MAX_SAMPLERS` records (`none`), otherwise append a record whose mask
is just the calling texture stage; if present, OR the stage into the
existing record.  On success the call site is appended to
`SampleCalls[TexStage]` referencing the record's index. -/
def registerSampleCall (Samplers : List SamplerRecord)
    (StageCalls : List SampleCall) (callId TexIdx : Nat)
    (Sampler : SamplerConfig) (TexStage : HshStage) :
    Option (List SamplerRecord × List SampleCall) :=
  match Samplers.findIdx? (fun S => S.Config == Sampler) with
  | none =>
      if Samplers.length = HSH_MAX_SAMPLERS then none
      else
        some (Samplers ++ [⟨Sampler, 1 <<< TexStage.toNat⟩],
          StageCalls ++ [⟨callId, TexIdx, Samplers.length⟩])
  | some i =>
      match Samplers[i]? with
      | some R =>
          some (Samplers.set i { R with
              UseStages := R.UseStages ||| (1 <<< TexStage.toNat) },
            StageCalls ++ [⟨callId, TexIdx, i⟩])
      | none => none  -- unreachable: findIdx? returns an in-range index

/-- `TextureRecord`: name, kind and stage-usage mask. -/
structure TextureRecord where
  Name : String
  Kind : Nat
  UseStages : Nat
  deriving DecidableEq, Repr

/-- `StagesBuilder::registerTexture` (lines 2342-2350): find a record of
the same name and OR the stage into its mask, else append a fresh record
whose mask holds exactly the registering stage. -/
def registerTexture (Textures : List TextureRecord) (Name : String)
    (Kind : Nat) (Stage : HshStage) : List TextureRecord :=
  match Textures.findIdx? (fun T => T.Name == Name) with
  | some i =>
      match Textures[i]? with
      | some R =>
          Textures.set i { R with
            UseStages := R.UseStages ||| (1 <<< Stage.toNat) }
      | none => Textures  -- unreachable: findIdx? returns an in-range index
  | none => Textures ++ [⟨Name, Kind, 1 <<< Stage.toNat⟩]

/-- State threaded through the shader-data emission loop of
`GenerateConsumer::run` (lines 3275-3303).  `SeenHashes` is the
process-wide `std::unordered_set<uint64_t>` member; `Artifacts` the named
`_hshs_<hash>`/`_hsho_<hash>` definitions written to the output stream;
`Table` the `_hsho_<hash>` references written into the current program's
`_HshShaderData` initializer. -/
structure EmitState where
  SeenHashes : List Nat
  Artifacts : List (Nat × List Nat)
  Table : List Nat
  deriving DecidableEq, Repr

/-- One iteration of the `for (auto &[Data, Hash] : Binaries.Binaries)`
loop: an empty binary is skipped entirely; otherwise the `_hsho_<hash>`
reference always goes into the program's table, and the binary's data is
emitted as a named artifact (and the hash recorded) only when the hash
was not yet in the process-wide set. -/
def emitBinary (st : EmitState) (Data : List Nat) (Hash : Nat) : EmitState :=
  if Data.isEmpty then st
  else
    let st1 := { st with Table := st.Table ++ [Hash] }
    if Hash ∈ st1.SeenHashes then st1
    else
      { st1 with
        SeenHashes := st1.SeenHashes ++ [Hash],
        Artifacts := st1.Artifacts ++ [(Hash, Data)] }

/-- All binaries of one program's targets, emitted in order; the table is
reset per program (`Table` collects this program's references), while
`SeenHashes` and `Artifacts` persist. -/
def emitProgram (st : EmitState) (bins : List (List Nat × Nat)) : EmitState :=
  bins.foldl (fun s b => emitBinary s b.1 b.2) { st with Table := [] }

/-- A whole run: programs processed sequentially against the process-wide
state, starting from an empty seen-hash set. -/
def emitRun (progs : List (List (List Nat × Nat))) : EmitState :=
  progs.foldl emitProgram ⟨[], [], []⟩

/-- A vertex-buffer (or instance-buffer) parameter as
`CheckVertexBufferParm` sees it: whether the non-reference type is a
structure/class, whether `CheckHshRecordCompatibility` accepts it, and
the attribute's constant slot index. -/
structure VertexBufferParm where
  name : String
  isStructOrClass : Bool
  recordCompatible : Bool
  index : Int
  deriving DecidableEq, Repr

/-- A texture parameter as `CheckTextureParm` sees it. -/
structure TextureParm where
  name : String
  isTextureType : Bool
  index : Int
  deriving DecidableEq, Repr

/-- The diagnostics the parameter-validation code can report, in the
order they reach the diagnostics engine. -/
inductive Diag where
  | badVertexBufferType (parm : String)
  | recordFieldIncompatible (parm : String)
  | vertexBufferOutOfRange (parm : String)
  | vertexBufferDuplicate (parm other : String)
  | badTextureType (parm : String)
  | textureOutOfRange (parm : String)
  | textureDuplicate (parm other : String)
  | badColorTargetType (parm : String)
  | colorTargetOutOfRange (parm : String)
  | badVertexPositionType (parm : String)
  deriving DecidableEq, Repr

/-- State of the parameter loop in `GenerateConsumer::run` (lines
3125-3153): the three occupancy tables, the stage-use mask, and the
diagnostic stream.  The occupancy arrays are modelled as total maps from
the slot index; the source indexes the 32-element array with the
attribute's value even when it is out of range (after having reported the
range error), which this total map renders as a defined lookup. -/
structure ParamState where
  VertexBufferParms : Int → Option String
  TextureParms : HshStage → Int → Option String
  ColorTargetParms : Int → Option String
  UseStages : Nat
  Diags : List Diag

def initParamState : ParamState where
  VertexBufferParms := fun _ => none
  TextureParms := fun _ _ => none
  ColorTargetParms := fun _ => none
  UseStages := 1
  Diags := []

/-- `CheckVertexBufferParm`: the type checks (an `if`/`else if` chain, so
at most one of the two reports), the slot-range check and the
duplicate-slot check each run and report independently; the parameter is
recorded in the table only when every check passed. -/
def checkVertexBufferParm (st : ParamState) (p : VertexBufferParm) :
    Bool × ParamState :=
  let typeDs : List Diag :=
    if !p.isStructOrClass then [.badVertexBufferType p.name]
    else if !p.recordCompatible then [.recordFieldIncompatible p.name]
    else []
  let rangeDs : List Diag :=
    if p.index < 0 ∨ (HSH_MAX_VERTEX_BUFFERS : Int) ≤ p.index then
      [.vertexBufferOutOfRange p.name]
    else []
  let dupDs : List Diag :=
    match st.VertexBufferParms p.index with
    | some other => [.vertexBufferDuplicate p.name other]
    | none => []
  let st1 := { st with Diags := st.Diags ++ typeDs ++ rangeDs ++ dupDs }
  if typeDs.isEmpty ∧ rangeDs.isEmpty ∧ dupDs.isEmpty then
    (true, { st1 with VertexBufferParms := fun i =>
      if i = p.index then some p.name else st1.VertexBufferParms i })
  else (false, st1)

/-- `CheckTextureParm`: texture-type, slot-range and duplicate checks,
against the per-stage texture table. -/
def checkTextureParm (st : ParamState) (p : TextureParm) (Stage : HshStage) :
    Bool × ParamState :=
  let typeDs : List Diag :=
    if !p.isTextureType then [.badTextureType p.name] else []
  let rangeDs : List Diag :=
    if p.index < 0 ∨ (HSH_MAX_TEXTURES : Int) ≤ p.index then
      [.textureOutOfRange p.name]
    else []
  let dupDs : List Diag :=
    match st.TextureParms Stage p.index with
    | some other => [.textureDuplicate p.name other]
    | none => []
  let st1 := { st with Diags := st.Diags ++ typeDs ++ rangeDs ++ dupDs }
  if typeDs.isEmpty ∧ rangeDs.isEmpty ∧ dupDs.isEmpty then
    (true, { st1 with TextureParms := fun s i =>
      if s = Stage ∧ i = p.index then some p.name else st1.TextureParms s i })
  else (false, st1)

/-- `CheckColorTargetParm`: type and slot-range checks (no duplicate
check in the source). -/
def checkColorTargetParm (st : ParamState) (name : String) (isFloat4 : Bool)
    (index : Int) : Bool × ParamState :=
  let typeDs : List Diag :=
    if !isFloat4 then [.badColorTargetType name] else []
  let rangeDs : List Diag :=
    if index < 0 ∨ (HSH_MAX_COLOR_TARGETS : Int) ≤ index then
      [.colorTargetOutOfRange name]
    else []
  let st1 := { st with Diags := st.Diags ++ typeDs ++ rangeDs }
  if typeDs.isEmpty ∧ rangeDs.isEmpty then
    (true, { st1 with ColorTargetParms := fun i =>
      if i = index then some name else st1.ColorTargetParms i })
  else (false, st1)

/-- One lambda parameter of the shader function, with the data the
validation loop inspects: its role attribute, the facts about its type,
and its determined stage (`DetermineParmVarStage`) for output roles. -/
inductive Param where
  | position (name : String) (isFloat4 : Bool) (stage : HshStage)
  | colorTarget (name : String) (isFloat4 : Bool) (index : Int)
      (stage : HshStage)
  | otherOutput (stage : HshStage)
  | vertexBuffer (p : VertexBufferParm)
  | instanceBuffer (p : VertexBufferParm)
  | texture (Stage : HshStage) (p : TextureParm)
  | plainInput
  deriving Repr

/-- The `for (ParmVarDecl *Param : CallOperator->parameters())` loop:
each failing check makes `run` return immediately (`return;`), so the
result is `false` (aborted) with the diagnostics collected so far;
otherwise the loop continues through the whole list. -/
def processParams (st : ParamState) : List Param → Bool × ParamState
  | [] => (true, st)
  | p :: rest =>
      match p with
      | .position name isFloat4 stage =>
          if !isFloat4 then
            (false, { st with Diags := st.Diags ++ [.badVertexPositionType name] })
          else
            processParams
              { st with UseStages := st.UseStages ||| (1 <<< stage.toNat) } rest
      | .colorTarget name isFloat4 index stage =>
          match checkColorTargetParm st name isFloat4 index with
          | (false, st') => (false, st')
          | (true, st') =>
              processParams
                { st' with UseStages := st'.UseStages ||| (1 <<< stage.toNat) }
                rest
      | .otherOutput stage =>
          processParams
            { st with UseStages := st.UseStages ||| (1 <<< stage.toNat) } rest
      | .vertexBuffer vp =>
          match checkVertexBufferParm st vp with
          | (false, st') => (false, st')
          | (true, st') => processParams st' rest
      | .instanceBuffer vp =>
          match checkVertexBufferParm st vp with
          | (false, st') => (false, st')
          | (true, st') => processParams st' rest
      | .texture Stage tp =>
          match checkTextureParm st tp Stage with
          | (false, st') => (false, st')
          | (true, st') => processParams st' rest
      | .plainInput => processParams st rest

/-- The program's validated model when the parameter loop completed, or
`none` when `run` returned early — in which case none of the later
artifact-emitting code executes. -/
def programArtifacts (ps : List Param) : Option ParamState :=
  match processParams initParamState ps with
  | (true, st) => some st
  | (false, _) => none

/-- The diagnostic stream after processing the parameter list. -/
def programDiags (ps : List Param) : List Diag :=
  (processParams initParamState ps).2.Diags

/-! ## Helper lemmas -/

/-- `std::find_if` by a projected key finds exactly the position of the
unique element carrying that key when the projected keys are distinct. -/
theorem findIdx?_of_nodup_proj {α β : Type} [DecidableEq β] (f : α → β)
    (key : β) : ∀ (l : List α) (i k : Nat) (R : α),
    (l.map f).Nodup → l[i]? = some R → f R = key →
    l.findIdx? (fun x => f x == key) k = some (i + k)
  | [], i, _, _, _, hget, _ => by simp at hget
  | a :: t, 0, k, R, hnd, hget, hkey => by
      simp at hget
      subst hget
      rw [List.findIdx?_cons, if_pos (by simp [hkey])]
      simp
  | a :: t, i + 1, k, R, hnd, hget, hkey => by
      simp only [List.getElem?_cons_succ] at hget
      rw [List.map_cons, List.nodup_cons] at hnd
      have hmem : R ∈ t := by
        rw [List.mem_iff_getElem?]; exact ⟨i, hget⟩
      have hka : f a ≠ key := by
        intro hfa
        have hin : f a ∈ t.map f := by
          rw [hfa, ← hkey]
          exact List.mem_map_of_mem f hmem
        exact hnd.1 hin
      rw [List.findIdx?_cons, if_neg (by simp [hka])]
      have := findIdx?_of_nodup_proj f key t i (k + 1) R hnd.2 hget hkey
      rw [this]
      congr 1
      omega

/-- Setting a position of a list to the value it already holds is the
identity. -/
theorem set_getElem?_self {α : Type} (l : List α) (i : Nat) (x : α)
    (h : l[i]? = some x) : l.set i x = l := by
  apply List.ext_getElem?
  intro n
  rw [List.getElem?_set]
  split
  · subst n
    split
    · exact h.symm
    · rename_i hlt
      rw [List.getElem?_eq_none]
      omega
  · rfl

/-- `getFieldForExpr` only ever appends to `Fields`. -/
theorem getFieldForExpr_fields_mono (R : InterfaceRecord) (E : ExprM)
    (ig : Bool) (p : ExprM × Nat) (hp : p ∈ R.Fields) :
    p ∈ (R.getFieldForExpr E ig).2.Fields := by
  unfold InterfaceRecord.getFieldForExpr
  rcases h : R.Fields.find? (fun P => P.1 == E) with _ | P
  · simp only [h]
    exact List.mem_append_left _ hp
  · simp only [h]
    exact hp

/-- A consumer field reference always reads an existing-or-new field of
the record keyed by the expression. -/
theorem consumerRef_shape (R : InterfaceRecord) (host : Bool) (D : HshStage)
    (E : ExprM) : ∃ f R',
    R.createConsumerFieldReference host D E = (.interfaceField host D false f, R')
    ∧ (E, f) ∈ R'.Fields
    ∧ (∀ p ∈ R.Fields, p ∈ R'.Fields) := by
  unfold InterfaceRecord.createConsumerFieldReference
    InterfaceRecord.getFieldForExpr
  rcases h : R.Fields.find? (fun P => P.1 == E) with _ | P
  · simp only [h]
    refine ⟨R.Fields.length, _, rfl, ?_, ?_⟩
    · simp
    · intro p hp
      exact List.mem_append_left _ hp
  · simp only [h]
    have hPE : P.1 = E := by
      have := List.find?_some h
      simpa using this
    refine ⟨P.2, R, rfl, ?_, fun p hp => hp⟩
    have := List.mem_of_find?_eq_some h
    rw [← hPE]
    exact this

/-- A producer field reference for an expression the record has never
seen creates the next field and reports it. -/
theorem producerRef_fresh (R : InterfaceRecord) (host : Bool) (D : HshStage)
    (E : ExprM) (h : ∀ p ∈ R.Fields, p.1 ≠ E) :
    R.createProducerFieldReference host D E
      = (some (.interfaceField host D true R.Fields.length),
         { R with Fields := R.Fields ++ [(E, R.Fields.length)] }) := by
  unfold InterfaceRecord.createProducerFieldReference
    InterfaceRecord.getFieldForExpr
  have hfind : R.Fields.find? (fun P => P.1 == E) = none := by
    rw [List.find?_eq_none]
    intro p hp
    simp [h p hp]
  rw [hfind]

/-- `bumpDeclRef` never changes the statement sequence, only a count. -/
theorem bumpDeclRef_map_stmt (od : Option String) :
    ∀ (l l' : List StmtEntry), bumpDeclRef od l = some l' →
    l'.map StmtEntry.stmt = l.map StmtEntry.stmt
  | [], _, h => by simp [bumpDeclRef] at h
  | e :: rest, l', h => by
      unfold bumpDeclRef at h
      split at h
      · simp only [Option.some.injEq] at h
        subst h
        simp
      · rcases hrec : bumpDeclRef od rest with _ | rest'
        · rw [hrec] at h
          exact Option.noConfusion h
        · rw [hrec] at h
          have h2 : e :: rest' = l' := by simpa using h
          subst h2
          simp [bumpDeclRef_map_stmt od rest rest' hrec]

/-- `addStageStmt` preserves every statement already present (in any
stage). -/
theorem addStageStmt_mem_preserve (b : StagesBuilder) (S : StmtM)
    (Stage : HshStage) (od : Option String) (s : HshStage) (x : StmtM)
    (hx : x ∈ (b.StageStmts s).map StmtEntry.stmt) :
    x ∈ ((b.addStageStmt S Stage od).StageStmts s).map StmtEntry.stmt := by
  unfold StagesBuilder.addStageStmt
  dsimp only
  by_cases hs : s = Stage
  · subst hs
    rw [if_pos rfl]
    split
    · rcases hb : bumpDeclRef od (b.StageStmts s) with _ | upd
      · simp only [hb, List.map_append]
        exact List.mem_append_left _ hx
      · simp only [hb]
        rw [bumpDeclRef_map_stmt od _ upd hb]
        exact hx
    · split
      · exact hx
      · simp only [List.map_append]
        exact List.mem_append_left _ hx
  · rw [if_neg hs]
    exact hx

/-- The statement just added by `addStageStmt` is present afterwards. -/
theorem addStageStmt_mem_self (b : StagesBuilder) (S : StmtM)
    (Stage : HshStage) (od : Option String) (hS : S.isDeclStmt = false) :
    S ∈ ((b.addStageStmt S Stage od).StageStmts Stage).map StmtEntry.stmt := by
  unfold StagesBuilder.addStageStmt
  dsimp only
  rw [if_pos rfl, hS]
  rw [if_neg (by decide)]
  by_cases hany : (b.StageStmts Stage).any (fun e => e.stmt == S)
  · rw [if_pos hany]
    rcases List.any_eq_true.1 hany with ⟨e, he, heS⟩
    simp only [beq_iff_eq] at heS
    rw [← heS]
    exact List.mem_map_of_mem StmtEntry.stmt he
  · rw [if_neg hany]
    simp

/-- `addStageStmt` leaves the bitmask and both record arrays alone. -/
theorem addStageStmt_frame (b : StagesBuilder) (S : StmtM)
    (Stage : HshStage) (od : Option String) :
    (b.addStageStmt S Stage od).UseStages = b.UseStages
    ∧ (b.addStageStmt S Stage od).InterStageRecords = b.InterStageRecords
    ∧ (b.addStageStmt S Stage od).HostToStageRecords = b.HostToStageRecords :=
  ⟨rfl, rfl, rfl⟩

/-- The record coming out of a producer field reference still holds every
previous field. -/
theorem producerRef_fields_mono (R : InterfaceRecord) (host : Bool)
    (D : HshStage) (E : ExprM) (p : ExprM × Nat) (hp : p ∈ R.Fields) :
    p ∈ (R.createProducerFieldReference host D E).2.Fields := by
  unfold InterfaceRecord.createProducerFieldReference
  rcases hg : R.getFieldForExpr E true with ⟨fopt, R'⟩
  have hm := getFieldForExpr_fields_mono R E true p hp
  rw [hg] at hm
  rcases fopt with _ | f
  · simpa using hm
  · simpa using hm

/-- `addStageStmt` leaves every other stage's statement list alone
(stated early; also used by the C9 development below). -/
theorem addStageStmt_untouched (b : StagesBuilder) (S : StmtM)
    (Stage s : HshStage) (od : Option String) (h : s ≠ Stage) :
    (b.addStageStmt S Stage od).StageStmts s = b.StageStmts s := by
  unfold StagesBuilder.addStageStmt
  dsimp only
  rw [if_neg h]

/-- Reading an `InterStageRecords` slot after a store. -/
theorem setInter_get (b : StagesBuilder) (d : HshStage)
    (R : InterfaceRecord) (d' : HshStage) :
    (setInter b d R).InterStageRecords d'
      = if d' = d then R else b.InterStageRecords d' := rfl

/-- `setInter` touches nothing but the one record slot. -/
theorem setInter_frame (b : StagesBuilder) (d : HshStage)
    (R : InterfaceRecord) :
    (setInter b d R).UseStages = b.UseStages
    ∧ (setInter b d R).HostToStageRecords = b.HostToStageRecords
    ∧ (setInter b d R).StageStmts = b.StageStmts := ⟨rfl, rfl, rfl⟩

/-- Reading a `HostToStageRecords` slot after a store. -/
theorem setHost_get (b : StagesBuilder) (d : HshStage)
    (R : InterfaceRecord) (d' : HshStage) :
    (setHost b d R).HostToStageRecords d'
      = if d' = d then R else b.HostToStageRecords d' := rfl

/-- One relay iteration does not touch the bitmask, the host records, or
any other stage's statements. -/
theorem relayStep_frame (b : StagesBuilder) (E : ExprM) (F S D : HshStage) :
    (relayStep b E F S D).UseStages = b.UseStages
    ∧ (relayStep b E F S D).HostToStageRecords = b.HostToStageRecords
    ∧ (∀ s, s ≠ S → (relayStep b E F S D).StageStmts s = b.StageStmts s) := by
  unfold relayStep
  rcases hp : (b.InterStageRecords D).createProducerFieldReference false D E
    with ⟨Popt, DRec'⟩
  rcases Popt with _ | P
  · exact ⟨rfl, rfl, fun s _ => rfl⟩
  · dsimp only
    by_cases hSF : S = F
    · rw [if_pos hSF]
      refine ⟨rfl, rfl, ?_⟩
      intro s hs
      exact addStageStmt_untouched _ _ _ _ _ hs
    · rw [if_neg hSF]
      refine ⟨rfl, rfl, ?_⟩
      intro s hs
      exact addStageStmt_untouched _ _ _ _ _ hs

/-- One relay iteration only grows record field lists, and changes no
record other than the pair's two. -/
theorem relayStep_records (b : StagesBuilder) (E : ExprM) (F S D : HshStage) :
    (∀ d, d ≠ D → d ≠ S →
      (relayStep b E F S D).InterStageRecords d = b.InterStageRecords d)
    ∧ (∀ d p, p ∈ (b.InterStageRecords d).Fields →
        p ∈ ((relayStep b E F S D).InterStageRecords d).Fields) := by
  unfold relayStep
  rcases hp : (b.InterStageRecords D).createProducerFieldReference false D E
    with ⟨Popt, DRec'⟩
  have hDRec : DRec' = (
      (b.InterStageRecords D).createProducerFieldReference false D E).2 := by
    rw [hp]
  have hstep : ∀ d p, p ∈ (b.InterStageRecords d).Fields →
      p ∈ ((setInter b D DRec').InterStageRecords d).Fields := by
    intro d p hpmem
    rw [setInter_get]
    by_cases hd : d = D
    · subst hd
      rw [if_pos rfl, hDRec]
      exact producerRef_fields_mono _ _ _ _ _ hpmem
    · rw [if_neg hd]
      exact hpmem
  rcases Popt with _ | P
  · constructor
    · intro d hD _
      rw [setInter_get, if_neg hD]
    · exact hstep
  · dsimp only
    by_cases hSF : S = F
    · rw [if_pos hSF]
      constructor
      · intro d hD _
        rw [(addStageStmt_frame _ _ _ _).2.1, setInter_get, if_neg hD]
      · intro d p hpmem
        rw [(addStageStmt_frame _ _ _ _).2.1]
        exact hstep d p hpmem
    · rw [if_neg hSF]
      rcases consumerRef_shape ((setInter b D DRec').InterStageRecords S)
          false S E with ⟨g, SRec2, hcr, _, hsub⟩
      constructor
      · intro d hD hS
        rw [(addStageStmt_frame _ _ _ _).2.1, setInter_get, if_neg hS,
          setInter_get, if_neg hD]
      · intro d p hpmem
        rw [(addStageStmt_frame _ _ _ _).2.1, setInter_get]
        by_cases hdS : d = S
        · subst hdS
          rw [if_pos rfl, hcr]
          dsimp only
          exact hsub p (hstep d p hpmem)
        · rw [if_neg hdS]
          exact hstep d p hpmem

/-- One relay iteration for an expression the destination record has not
seen: the producer field is created and an assignment into it — from the
original expression on the first hop, from the previous record's
consumer field on later hops — is appended to stage `S`'s statements. -/
theorem relayStep_spec (b : StagesBuilder) (E : ExprM) (F S D : HshStage)
    (hSD : S ≠ D)
    (hfreshD : ∀ p ∈ (b.InterStageRecords D).Fields, p.1 ≠ E) :
    (∃ f rhs,
      StmtM.assign (.interfaceField false D true f) rhs
          ∈ ((relayStep b E F S D).StageStmts S).map StmtEntry.stmt
        ∧ (S = F → rhs = E)
        ∧ (S ≠ F → ∃ g, rhs = .interfaceField false S false g))
    ∧ (∃ g, (E, g) ∈ ((relayStep b E F S D).InterStageRecords D).Fields) := by
  unfold relayStep
  rw [producerRef_fresh _ _ _ _ hfreshD]
  dsimp only
  set len := (b.InterStageRecords D).Fields.length with hlen
  set DRec' : InterfaceRecord :=
    { b.InterStageRecords D with
        Fields := (b.InterStageRecords D).Fields ++ [(E, len)] } with hDRec'
  have hmemD : (E, len) ∈ DRec'.Fields := by
    rw [hDRec']
    simp
  by_cases hSF : S = F
  · rw [if_pos hSF]
    constructor
    · refine ⟨len, E, ?_, fun _ => rfl, fun hne => absurd hSF hne⟩
      exact addStageStmt_mem_self _ _ _ _ rfl
    · refine ⟨len, ?_⟩
      rw [(addStageStmt_frame _ _ _ _).2.1, setInter_get, if_pos rfl]
      exact hmemD
  · rw [if_neg hSF]
    rcases consumerRef_shape ((setInter b D DRec').InterStageRecords S)
        false S E with ⟨g, SRec2, hcr, _, _⟩
    rw [hcr]
    dsimp only
    constructor
    · refine ⟨len, .interfaceField false S false g, ?_, fun hSF2 => absurd hSF2 hSF, fun _ => ⟨g, rfl⟩⟩
      exact addStageStmt_mem_self _ _ _ _ rfl
    · refine ⟨len, ?_⟩
      rw [(addStageStmt_frame _ _ _ _).2.1, setInter_get,
        if_neg (Ne.symm hSD), setInter_get, if_pos rfl]
      exact hmemD

/-- One relay iteration preserves every statement already present. -/
theorem relayStep_stmts_mono (b : StagesBuilder) (E : ExprM)
    (F S D : HshStage) (s : HshStage) (x : StmtM)
    (hx : x ∈ (b.StageStmts s).map StmtEntry.stmt) :
    x ∈ ((relayStep b E F S D).StageStmts s).map StmtEntry.stmt := by
  unfold relayStep
  rcases hp : (b.InterStageRecords D).createProducerFieldReference false D E
    with ⟨Popt, DRec'⟩
  rcases Popt with _ | P
  · exact hx
  · dsimp only
    by_cases hSF : S = F
    · rw [if_pos hSF]
      exact addStageStmt_mem_preserve _ _ _ _ _ _ hx
    · rw [if_neg hSF]
      exact addStageStmt_mem_preserve _ _ _ _ _ _ hx

/-- The relay loop preserves the bitmask, the host records, and all
existing statements and record fields. -/
theorem relaySteps_mono (E : ExprM) (F : HshStage) :
    ∀ (n : Nat) (b : StagesBuilder) (S D : HshStage),
    (relaySteps b E F S D n).UseStages = b.UseStages
    ∧ (relaySteps b E F S D n).HostToStageRecords = b.HostToStageRecords
    ∧ (∀ s x, x ∈ (b.StageStmts s).map StmtEntry.stmt →
        x ∈ ((relaySteps b E F S D n).StageStmts s).map StmtEntry.stmt)
    ∧ (∀ d p, p ∈ (b.InterStageRecords d).Fields →
        p ∈ ((relaySteps b E F S D n).InterStageRecords d).Fields)
  | 0, b, S, D => ⟨rfl, rfl, fun _ _ hx => hx, fun _ _ hp => hp⟩
  | n + 1, b, S, D => by
      unfold relaySteps
      by_cases hbit : b.UseStages.testBit D.toNat
      · rw [if_pos hbit]
        rcases relaySteps_mono E F n (relayStep b E F S D) D (D + 1)
          with ⟨h1, h2, h3, h4⟩
        refine ⟨?_, ?_, ?_, ?_⟩
        · rw [h1, (relayStep_frame b E F S D).1]
        · rw [h2, (relayStep_frame b E F S D).2.1]
        · intro s x hx
          exact h3 s x (relayStep_stmts_mono b E F S D s x hx)
        · intro d p hp
          exact h4 d p ((relayStep_records b E F S D).2 d p hp)
      · rw [if_neg hbit]
        exact relaySteps_mono E F n b S (D + 1)

/-- Stages that are no pair's producer side keep their statement lists
through the relay loop. -/
theorem relaySteps_untouched (E : ExprM) (F : HshStage) :
    ∀ (n : Nat) (b : StagesBuilder) (S D : HshStage) (s : HshStage),
    s ∉ (chainPairs b.UseStages S D n).map Prod.fst →
    (relaySteps b E F S D n).StageStmts s = b.StageStmts s
  | 0, _, _, _, _, _ => rfl
  | n + 1, b, S, D, s, hs => by
      unfold relaySteps
      unfold chainPairs at hs
      by_cases hbit : b.UseStages.testBit D.toNat
      · rw [if_pos hbit]
        rw [if_pos hbit] at hs
        simp only [List.map_cons, List.mem_cons, not_or] at hs
        have hrec := relaySteps_untouched E F n (relayStep b E F S D)
          D (D + 1) s ?_
        · rw [hrec, (relayStep_frame b E F S D).2.2 s hs.1]
        · rw [(relayStep_frame b E F S D).1]
          exact hs.2
      · rw [if_neg hbit]
        rw [if_neg hbit] at hs
        exact relaySteps_untouched E F n b S (D + 1) s hs

/-- Main induction for the relay loop: for every consecutive pair of
active stages it walks, the loop leaves an assignment into that pair's
fresh producer field in the earlier stage — from the original expression
on the first hop, from the previous record's consumer field afterwards —
and the pair's record ends up holding a field keyed by the expression. -/
theorem relaySteps_spec (E : ExprM) (F : HshStage) :
    ∀ (n : Nat) (b : StagesBuilder) (S D : HshStage), S < D →
    (∀ d, D ≤ d → ∀ p ∈ (b.InterStageRecords d).Fields, p.1 ≠ E) →
    ∀ P ∈ chainPairs b.UseStages S D n,
      (∃ f rhs,
        StmtM.assign (.interfaceField false P.2 true f) rhs
            ∈ ((relaySteps b E F S D n).StageStmts P.1).map StmtEntry.stmt
          ∧ (P.1 = F → rhs = E)
          ∧ (P.1 ≠ F → ∃ g, rhs = .interfaceField false P.1 false g))
      ∧ (∃ g, (E, g) ∈
          ((relaySteps b E F S D n).InterStageRecords P.2).Fields)
  | 0, b, S, D, _, _, P, hP => by simp [chainPairs] at hP
  | n + 1, b, S, D, hSD, hfresh, P, hP => by
      unfold relaySteps
      unfold chainPairs at hP
      by_cases hbit : b.UseStages.testBit D.toNat
      · rw [if_pos hbit]
        rw [if_pos hbit] at hP
        have hfreshD := hfresh D le_rfl
        have hstep := relayStep_spec b E F S D (Int.ne_of_lt hSD) hfreshD
        have hfresh' : ∀ d, D + 1 ≤ d →
            ∀ p ∈ ((relayStep b E F S D).InterStageRecords d).Fields,
              p.1 ≠ E := by
          intro d hd
          rw [(relayStep_records b E F S D).1 d
            (Int.add_one_le_iff.1 hd).ne'
            (lt_trans hSD (Int.add_one_le_iff.1 hd)).ne']
          exact hfresh d (le_of_lt (Int.add_one_le_iff.1 hd))
        rcases List.mem_cons.1 hP with hP | hP
        · subst hP
          rcases relaySteps_mono E F n (relayStep b E F S D) D (D + 1)
            with ⟨_, _, h3, h4⟩
          constructor
          · rcases hstep.1 with ⟨f, rhs, hmem, hF, hnF⟩
            exact ⟨f, rhs, h3 _ _ hmem, hF, hnF⟩
          · rcases hstep.2 with ⟨g, hg⟩
            exact ⟨g, h4 _ _ hg⟩
        · have hrec := relaySteps_spec E F n (relayStep b E F S D) D (D + 1)
            (lt_add_one D) hfresh' P ?_
          · exact hrec
          · rw [(relayStep_frame b E F S D).1]
            exact hP
      · rw [if_neg hbit]
        rw [if_neg hbit] at hP
        exact relaySteps_spec E F n b S (D + 1) (lt_trans hSD (lt_add_one D))
          (fun d hd => hfresh d (le_trans (le_of_lt (lt_add_one D)) hd)) P hP

/-- `activeFrom` always starts with its start stage. -/
theorem activeFrom_head (mask : Nat) : ∀ (n : Nat) (S D : Int),
    ∃ t, activeFrom mask S D n = S :: t
  | 0, S, D => ⟨[], rfl⟩
  | n + 1, S, D => by
      unfold activeFrom
      by_cases hbit : mask.testBit D.toNat
      · rw [if_pos hbit]
        exact ⟨activeFrom mask D (D + 1) n, rfl⟩
      · rw [if_neg hbit]
        exact activeFrom_head mask n S (D + 1)

/-- The loop's pairs are exactly the consecutive pairs of the active
stage sequence starting at the origin stage. -/
theorem chainPairs_eq_zip (mask : Nat) : ∀ (n : Nat) (S D : Int),
    chainPairs mask S D n
      = (activeFrom mask S D n).zip (activeFrom mask S D n).tail
  | 0, S, D => rfl
  | n + 1, S, D => by
      unfold chainPairs activeFrom
      by_cases hbit : mask.testBit D.toNat
      · rw [if_pos hbit, if_pos hbit]
        rcases activeFrom_head mask n D (D + 1) with ⟨t, ht⟩
        rw [chainPairs_eq_zip mask n D (D + 1), ht]
        rfl
      · rw [if_neg hbit, if_neg hbit]
        exact chainPairs_eq_zip mask n S (D + 1)

/-- Every active stage in the loop's window appears as the consumer side
of exactly the hop that reaches it; in particular the final target. -/
theorem chainPairs_snd_mem (mask : Nat) : ∀ (n : Nat) (S D T : Int),
    0 ≤ D → mask.testBit T.toNat = true → D ≤ T → T < D + (n : Int) →
    T ∈ (chainPairs mask S D n).map Prod.snd
  | 0, S, D, T, _, _, hle, hlt => by
      exfalso
      simp only [Nat.cast_zero, add_zero] at hlt
      exact absurd hlt (not_lt.2 hle)
  | n + 1, S, D, T, hD, hTbit, hle, hlt => by
      unfold chainPairs
      by_cases hbit : mask.testBit D.toNat
      · rw [if_pos hbit]
        by_cases hTD : T = D
        · simp [hTD]
        · have hDT : D + 1 ≤ T :=
            Int.add_one_le_iff.2 (lt_of_le_of_ne hle (Ne.symm hTD))
          have hmem := chainPairs_snd_mem mask n D (D + 1) T
            (by omega) hTbit hDT (by push_cast at hlt ⊢; omega)
          simp only [List.map_cons, List.mem_cons]
          exact Or.inr hmem
      · rw [if_neg hbit]
        have hTD : T ≠ D := by
          intro h
          rw [h] at hTbit
          exact absurd hTbit (by simpa using hbit)
        have hDT : D + 1 ≤ T :=
          Int.add_one_le_iff.2 (lt_of_le_of_ne hle (Ne.symm hTD))
        exact chainPairs_snd_mem mask n S (D + 1) T (by omega) hTbit hDT
          (by push_cast at hlt ⊢; omega)

/-! ## Claims -/

/-- **C2.** In `ValueTracer`, the stage of a binary operation starts at
the maximum of the operand stages; add, subtract, multiply, their
compound-assignment forms and plain assignment always keep that maximum;
divide (and divide-assign) is promoted to the target stage exactly when
the divisor operand is interpolated, and otherwise stays at the operand
maximum; every other operator with an interpolated operand is promoted to
the target stage.  The same holds for the overloaded-operator form
handled by `VisitCXXOperatorCallExpr`. -/
theorem claim_C2_divide_promotion (Target : HshStage) (op : BinaryOpcode)
    (oo : OverloadedOperator) (L R : HshStage) :
    (keepsStage op = true → binaryOperatorStage Target op L R = max L R)
    ∧ (isDivOp op = true →
        binaryOperatorStage Target op L R =
          if GetInterpolated Target R then Target else max L R)
    ∧ (keepsStage op = false → isDivOp op = false →
        (GetInterpolated Target L || GetInterpolated Target R) = true →
        binaryOperatorStage Target op L R = Target)
    ∧ (keepsStageOO oo = true → operatorCallStage Target oo L R = max L R)
    ∧ (isDivOpOO oo = true →
        operatorCallStage Target oo L R =
          if GetInterpolated Target R then Target else max L R)
    ∧ (keepsStageOO oo = false → isDivOpOO oo = false →
        (GetInterpolated Target L || GetInterpolated Target R) = true →
        operatorCallStage Target oo L R = Target) := by
  refine ⟨?_, ?_, ?_, ?_, ?_, ?_⟩
  · intro h
    cases op <;> simp_all [keepsStage, binaryOperatorStage]
  · intro h
    cases op <;> simp_all [isDivOp, binaryOperatorStage]
  · intro h1 h2 h3
    cases op <;> simp_all [keepsStage, isDivOp, binaryOperatorStage]
  · intro h
    cases oo <;> simp_all [keepsStageOO, operatorCallStage]
  · intro h
    cases oo <;> simp_all [isDivOpOO, operatorCallStage]
  · intro h1 h2 h3
    cases oo <;> simp_all [keepsStageOO, isDivOpOO, operatorCallStage]

/-- Witness for C2: divide at target Fragment with an interpolated
dividend (Vertex) and a Host divisor stays at Vertex; with an
interpolated divisor it is promoted to Fragment; a comparison operator is
always promoted. -/
theorem claim_C2_witness :
    binaryOperatorStage HshFragmentStage .BO_Div HshVertexStage HshHostStage
      = HshVertexStage
    ∧ binaryOperatorStage HshFragmentStage .BO_Div HshHostStage HshVertexStage
      = HshFragmentStage
    ∧ binaryOperatorStage HshFragmentStage (.BO_Other "<") HshVertexStage
        HshHostStage = HshFragmentStage := by
  refine ⟨?_, ?_, ?_⟩
  · have h := (claim_C2_divide_promotion HshFragmentStage .BO_Div .OO_Slash
      HshVertexStage HshHostStage).2.1 (by decide)
    rw [h]; decide
  · have h := (claim_C2_divide_promotion HshFragmentStage .BO_Div .OO_Slash
      HshHostStage HshVertexStage).2.1 (by decide)
    rw [h]; decide
  · have h := (claim_C2_divide_promotion HshFragmentStage (.BO_Other "<")
      .OO_Slash HshVertexStage HshHostStage).2.2.1 (by decide) (by decide)
      (by decide)
    rw [h]

/-- **C3.** `InterfaceRecord::getFieldForExpr` keys fields by structural
equality of the expression tree (`isSameComparisonOperand`; expressions
are values here, so structural equality is `=`): requesting a field twice
for the same expression returns the same field and leaves the field count
unchanged, and a single request grows the field count exactly when no
structurally equal expression was requested before. -/
theorem claim_C3_field_reuse (R : InterfaceRecord) (E : ExprM) :
    (((R.getFieldForExpr E false).2.getFieldForExpr E false).1
        = (R.getFieldForExpr E false).1
      ∧ ((R.getFieldForExpr E false).2.getFieldForExpr E false).2.Fields.length
        = (R.getFieldForExpr E false).2.Fields.length)
    ∧ (R.getFieldForExpr E false).2.Fields.length
        = R.Fields.length + (if ∃ P ∈ R.Fields, P.1 = E then 0 else 1) := by
  rcases h : R.Fields.find? (fun P => P.1 == E) with _ | P
  · have hnone : ∀ P ∈ R.Fields, P.1 ≠ E := by
      intro P hP
      have := List.find?_eq_none.1 h P hP
      simpa using this
    have hif : ¬ ∃ P ∈ R.Fields, P.1 = E := by
      rintro ⟨P, hP, hPE⟩; exact hnone P hP hPE
    have h1 : R.getFieldForExpr E false
        = (some R.Fields.length,
           { R with Fields := R.Fields ++ [(E, R.Fields.length)] }) := by
      simp [InterfaceRecord.getFieldForExpr, h]
    have hfind2 : (R.Fields ++ [(E, R.Fields.length)]).find?
        (fun P => P.1 == E) = some (E, R.Fields.length) := by
      rw [List.find?_append, h]; simp
    constructor
    · rw [h1]
      simp [InterfaceRecord.getFieldForExpr, hfind2]
    · rw [h1]; simp [hif]
  · have hPE : P.1 = E := by
      have := List.find?_some h
      simpa using this
    have hmem : P ∈ R.Fields := List.mem_of_find?_eq_some h
    have hif : ∃ Q ∈ R.Fields, Q.1 = E := ⟨P, hmem, hPE⟩
    have h1 : R.getFieldForExpr E false = (some P.2, R) := by
      simp [InterfaceRecord.getFieldForExpr, h]
    constructor
    · rw [h1]
      simp [InterfaceRecord.getFieldForExpr, h]
    · rw [h1]; simp [hif]

/-- **C4.** `StagesBuilder::VisitExpr` with equal source and target stage,
or with either stage unbound (`HshNoStage`), returns the expression
unchanged and leaves the builder — interface records and stage statement
lists — untouched: no interface field or relay assignment is created for
a value consumed in its defining stage. -/
theorem claim_C4_no_promotion_same_stage (b : StagesBuilder) (E : ExprM)
    (F T : HshStage) (h : F = T ∨ F = HshNoStage ∨ T = HshNoStage) :
    b.visitExpr E F T = (E, b) := by
  simp [StagesBuilder.visitExpr, h]

/-- Witness for C4: a Vertex-to-Vertex reference through a fresh builder
is returned as-is. -/
theorem claim_C4_witness :
    (StagesBuilder.init 35).visitExpr (.declRef "x") HshVertexStage
        HshVertexStage = (.declRef "x", StagesBuilder.init 35) :=
  claim_C4_no_promotion_same_stage (StagesBuilder.init 35) (.declRef "x")
    HshVertexStage HshVertexStage (Or.inl rfl)

/-- `registerTexture` preserves distinctness of the record names. -/
theorem registerTexture_names_nodup (Textures : List TextureRecord)
    (Name : String) (Kind : Nat) (Stage : HshStage)
    (h : (Textures.map TextureRecord.Name).Nodup) :
    ((registerTexture Textures Name Kind Stage).map TextureRecord.Name).Nodup := by
  unfold registerTexture
  rcases hidx : Textures.findIdx? (fun T => T.Name == Name) with _ | i
  · rw [hidx]
    have hnot : Name ∉ Textures.map TextureRecord.Name := by
      intro hmem
      rcases List.mem_map.1 hmem with ⟨R, hR, hRName⟩
      have := List.findIdx?_eq_none_iff.1 hidx R hR
      simp [hRName] at this
    simp only [List.map_append, List.map_cons, List.map_nil]
    rw [List.nodup_append]
    refine ⟨h, by simp, ?_⟩
    intro x hx hxmem
    simp only [List.mem_singleton] at hxmem
    subst hxmem
    exact hnot hx
  · rw [hidx]
    rcases hget : Textures[i]? with _ | R
    · simp only [hget]
      exact h
    · simp only [hget]
      rw [List.map_set]
      rw [set_getElem?_self]
      · exact h
      · rw [List.getElem?_map, hget]
        rfl

/-- **C10.** `StagesBuilder::registerTexture` deduplicates by name: a
name already present has the registering stage ORed into that record's
usage mask, with the table otherwise unchanged (in particular its size);
a first-time name appends one record whose mask holds exactly the
registering stage; and consequently the texture table built by any
sequence of registrations (it starts empty) never holds two records with
the same name. -/
theorem claim_C10_texture_dedup (Textures : List TextureRecord)
    (Name : String) (Kind : Nat) (Stage : HshStage)
    (hnd : (Textures.map TextureRecord.Name).Nodup) :
    (Name ∉ Textures.map TextureRecord.Name →
      registerTexture Textures Name Kind Stage
        = Textures ++ [⟨Name, Kind, 1 <<< Stage.toNat⟩])
    ∧ (∀ i R, Textures[i]? = some R → R.Name = Name →
        registerTexture Textures Name Kind Stage
          = Textures.set i
              { R with UseStages := R.UseStages ||| (1 <<< Stage.toNat) })
    ∧ (Name ∈ Textures.map TextureRecord.Name →
        (registerTexture Textures Name Kind Stage).length = Textures.length)
    ∧ (∀ regs : List (String × Nat × HshStage),
        ((regs.foldl (fun t r => registerTexture t r.1 r.2.1 r.2.2)
            []).map TextureRecord.Name).Nodup) := by
  refine ⟨?_, ?_, ?_, ?_⟩
  · intro hnot
    unfold registerTexture
    have hidx : Textures.findIdx? (fun T => T.Name == Name) = none := by
      rw [List.findIdx?_eq_none_iff]
      intro R hR
      simp only [beq_eq_false_iff_ne, ne_eq]
      intro hRN
      exact hnot (hRN ▸ List.mem_map_of_mem TextureRecord.Name hR)
    rw [hidx]
  · intro i R hget hname
    unfold registerTexture
    have hidx := findIdx?_of_nodup_proj TextureRecord.Name Name Textures i 0 R
      hnd hget hname
    rw [Nat.add_zero] at hidx
    simp only [hidx, hget]
  · intro hmem
    rcases List.mem_map.1 hmem with ⟨R, hR, hRName⟩
    rcases List.mem_iff_getElem?.1 hR with ⟨i, hget⟩
    have hidx := findIdx?_of_nodup_proj TextureRecord.Name Name Textures i 0 R
      hnd hget hRName
    rw [Nat.add_zero] at hidx
    unfold registerTexture
    simp only [hidx, hget]
    simp [List.length_set]
  · intro regs
    have : ∀ (t : List TextureRecord), (t.map TextureRecord.Name).Nodup →
        ((regs.foldl (fun t r => registerTexture t r.1 r.2.1 r.2.2)
            t).map TextureRecord.Name).Nodup := by
      induction regs with
      | nil => intro t ht; simpa using ht
      | cons r rs ih =>
          intro t ht
          exact ih _ (registerTexture_names_nodup t r.1 r.2.1 r.2.2 ht)
    exact this [] (by simp)

/-- Witness for C10: registering `"tex"` at Vertex then at Fragment
leaves one record whose mask covers both stages; a different name appends
a second record. -/
theorem claim_C10_witness :
    (registerTexture [⟨"tex", 0, 2⟩] "tex" 0 HshFragmentStage
        = [⟨"tex", 0, 34⟩])
    ∧ (registerTexture [⟨"tex", 0, 2⟩] "u" 1 HshFragmentStage
        = [⟨"tex", 0, 2⟩, ⟨"u", 1, 32⟩]) := by
  constructor
  · have h := (claim_C10_texture_dedup [⟨"tex", 0, 2⟩] "tex" 0
      HshFragmentStage (by decide)).2.1 0 ⟨"tex", 0, 2⟩ rfl rfl
    rw [h]
    decide
  · have h := (claim_C10_texture_dedup [⟨"tex", 0, 2⟩] "u" 1
      HshFragmentStage (by decide)).1 (by decide)
    rw [h]
    decide

/-- Emission invariant: artifact hashes are pairwise distinct and every
emitted artifact's hash is in the process-wide seen set. -/
def EmitInv (st : EmitState) : Prop :=
  (st.Artifacts.map Prod.fst).Nodup ∧ ∀ p ∈ st.Artifacts, p.1 ∈ st.SeenHashes

theorem emitBinary_inv (st : EmitState) (Data : List Nat) (Hash : Nat)
    (h : EmitInv st) : EmitInv (emitBinary st Data Hash) := by
  unfold emitBinary
  split
  · exact h
  · dsimp only
    split
    · exact h
    · rename_i hseen
      constructor
      · simp only [List.map_append, List.map_cons, List.map_nil]
        rw [List.nodup_append]
        refine ⟨h.1, by simp, ?_⟩
        intro x hx hxmem
        simp only [List.mem_singleton] at hxmem
        subst hxmem
        rcases List.mem_map.1 hx with ⟨p, hp, hph⟩
        exact hseen (hph ▸ h.2 p hp)
      · intro p hp
        simp only [List.mem_append, List.mem_singleton] at hp
        rcases hp with hp | hp
        · exact List.mem_append_left _ (h.2 p hp)
        · subst hp
          simp

theorem emitProgram_inv (st : EmitState) (bins : List (List Nat × Nat))
    (h : EmitInv st) : EmitInv (emitProgram st bins) := by
  unfold emitProgram
  have hres : EmitInv { st with Table := [] } := h
  revert hres
  generalize { st with Table := ([] : List Nat) } = st0
  induction bins generalizing st0 with
  | nil => intro h0; exact h0
  | cons b bs ih =>
      intro h0
      exact ih _ (emitBinary_inv _ b.1 b.2 h0)

/-- **C5.** The shader-data emission loop of `GenerateConsumer::run`:
every non-empty stage binary contributes exactly one `_hsho_<hash>`
reference to the current program's shader-data table; the binary's bytes
are emitted as a named artifact, and the hash added to the process-wide
`SeenHashes` set, only when the hash was not seen before; a hash already
seen changes neither the artifact stream nor the set; consequently, over
any whole run the emitted artifacts carry pairwise distinct hashes — two
identical stage binaries (same bytes, hence same hash) are stored once
and referenced by hash everywhere else. -/
theorem claim_C5_binary_dedup (st : EmitState) (Data : List Nat) (Hash : Nat)
    (hne : Data ≠ []) :
    ((emitBinary st Data Hash).Table = st.Table ++ [Hash])
    ∧ (Hash ∈ st.SeenHashes →
        (emitBinary st Data Hash).Artifacts = st.Artifacts
        ∧ (emitBinary st Data Hash).SeenHashes = st.SeenHashes)
    ∧ (Hash ∉ st.SeenHashes →
        (emitBinary st Data Hash).Artifacts = st.Artifacts ++ [(Hash, Data)]
        ∧ (emitBinary st Data Hash).SeenHashes = st.SeenHashes ++ [Hash])
    ∧ (∀ progs : List (List (List Nat × Nat)),
        ((emitRun progs).Artifacts.map Prod.fst).Nodup) := by
  have hDe : ¬ Data.isEmpty := by simpa using hne
  refine ⟨?_, ?_, ?_, ?_⟩
  · unfold emitBinary
    rw [if_neg hDe]
    dsimp only
    split
    · rfl
    · rfl
  · intro hseen
    unfold emitBinary
    rw [if_neg hDe]
    dsimp only
    rw [if_pos hseen]
    exact ⟨rfl, rfl⟩
  · intro hseen
    unfold emitBinary
    rw [if_neg hDe]
    dsimp only
    rw [if_neg hseen]
    exact ⟨rfl, rfl⟩
  · intro progs
    have : EmitInv (emitRun progs) := by
      unfold emitRun
      have h0 : EmitInv ⟨[], [], []⟩ := ⟨by simp, by simp⟩
      revert h0
      generalize (⟨[], [], []⟩ : EmitState) = st0
      induction progs generalizing st0 with
      | nil => intro h0; exact h0
      | cons p ps ih => intro h0; exact ih _ (emitProgram_inv _ p h0)
    exact this.1

/-- Witness for C5: a fragment binary seen in a first program is emitted
once; the same bytes in a second program add only the table reference. -/
theorem claim_C5_witness :
    (emitBinary ⟨[], [], []⟩ [7, 7] 99).Table = [99]
    ∧ (emitBinary ⟨[99], [(99, [7, 7])], []⟩ [7, 7] 99).Artifacts
        = [(99, [7, 7])] := by
  constructor
  · exact (claim_C5_binary_dedup ⟨[], [], []⟩ [7, 7] 99 (by decide)).1
  · exact ((claim_C5_binary_dedup ⟨[99], [(99, [7, 7])], []⟩ [7, 7] 99
      (by decide)).2.1 (by decide)).1

/-- **C6.** `StagesBuilder::registerSampleCall` keeps at most one
`SamplerRecord` per distinct `{filter, wrap}` configuration: a
configuration equal to an existing record's ORs the calling texture
stage into that record's usage mask without adding a record (the call
site references the existing index), so the same configuration from two
call sites yields one record whose mask covers both stages; a new
configuration is appended while the table is below `HSH_MAX_SAMPLERS`
(32), and is a fatal overflow (no registration) when the table is
full. -/
theorem claim_C6_sampler_dedup (Samplers : List SamplerRecord)
    (Calls : List SampleCall) (cid tidx : Nat) (cfg : SamplerConfig)
    (s1 s2 : HshStage)
    (hnd : (Samplers.map SamplerRecord.Config).Nodup) :
    (∀ i R, Samplers[i]? = some R → R.Config = cfg →
      registerSampleCall Samplers Calls cid tidx cfg s1
        = some (Samplers.set i
            { R with UseStages := R.UseStages ||| (1 <<< s1.toNat) },
          Calls ++ [⟨cid, tidx, i⟩]))
    ∧ (cfg ∉ Samplers.map SamplerRecord.Config →
        Samplers.length ≠ HSH_MAX_SAMPLERS →
        registerSampleCall Samplers Calls cid tidx cfg s1
          = some (Samplers ++ [⟨cfg, 1 <<< s1.toNat⟩],
              Calls ++ [⟨cid, tidx, Samplers.length⟩]))
    ∧ (cfg ∉ Samplers.map SamplerRecord.Config →
        Samplers.length = HSH_MAX_SAMPLERS →
        registerSampleCall Samplers Calls cid tidx cfg s1 = none)
    ∧ (∀ S' C', registerSampleCall Samplers Calls cid tidx cfg s1
          = some (S', C') → (S'.map SamplerRecord.Config).Nodup)
    ∧ (∀ S1 C1 S2 C2,
        registerSampleCall [] [] cid tidx cfg s1 = some (S1, C1) →
        registerSampleCall S1 C1 (cid + 1) tidx cfg s2 = some (S2, C2) →
        S2 = [⟨cfg, (1 <<< s1.toNat) ||| (1 <<< s2.toNat)⟩]) := by
  have hfresh : cfg ∉ Samplers.map SamplerRecord.Config →
      Samplers.findIdx? (fun S => S.Config == cfg) = none := by
    intro hnot
    rw [List.findIdx?_eq_none_iff]
    intro R hR
    simp only [beq_eq_false_iff_ne, ne_eq]
    intro hRC
    exact hnot (hRC ▸ List.mem_map_of_mem SamplerRecord.Config hR)
  refine ⟨?_, ?_, ?_, ?_, ?_⟩
  · intro i R hget hcfg
    unfold registerSampleCall
    have hidx := findIdx?_of_nodup_proj SamplerRecord.Config cfg Samplers i 0 R
      hnd hget hcfg
    rw [Nat.add_zero] at hidx
    simp only [hidx, hget]
  · intro hnot hlen
    unfold registerSampleCall
    simp only [hfresh hnot]
    rw [if_neg hlen]
  · intro hnot hlen
    unfold registerSampleCall
    simp only [hfresh hnot]
    rw [if_pos hlen]
  · intro S' C' hreg
    unfold registerSampleCall at hreg
    rcases hidx : Samplers.findIdx? (fun S => S.Config == cfg) with _ | i
    · simp only [hidx] at hreg
      by_cases hlen : Samplers.length = HSH_MAX_SAMPLERS
      · rw [if_pos hlen] at hreg
        exact absurd hreg (by simp)
      · rw [if_neg hlen] at hreg
        simp only [Option.some.injEq, Prod.mk.injEq] at hreg
        rw [← hreg.1]
        simp only [List.map_append, List.map_cons, List.map_nil]
        rw [List.nodup_append]
        refine ⟨hnd, by simp, ?_⟩
        intro x hx hxmem
        simp only [List.mem_singleton] at hxmem
        subst hxmem
        rcases List.mem_map.1 hx with ⟨R, hR, hRC⟩
        have := List.findIdx?_eq_none_iff.1 hidx R hR
        simp [hRC] at this
    · simp only [hidx] at hreg
      rcases hget : Samplers[i]? with _ | R
      · simp only [hget] at hreg
        exact absurd hreg (by simp)
      · simp only [hget, Option.some.injEq, Prod.mk.injEq] at hreg
        rw [← hreg.1]
        rw [List.map_set, set_getElem?_self]
        · exact hnd
        · rw [List.getElem?_map, hget]
          rfl
  · intro S1 C1 S2 C2 h1 h2
    unfold registerSampleCall at h1
    simp only [List.findIdx?_nil] at h1
    rw [if_neg (by decide)] at h1
    simp only [Option.some.injEq, Prod.mk.injEq, List.nil_append] at h1
    unfold registerSampleCall at h2
    rw [← h1.1] at h2
    simp only [List.findIdx?_cons] at h2
    rw [if_pos (by simp)] at h2
    simp only [List.getElem?_cons_zero, Option.some.injEq,
      Prod.mk.injEq] at h2
    rw [← h2.1]
    rfl

/-- Witness for C6: the same configuration registered from a Vertex and
then a Fragment call site against a concrete table. -/
theorem claim_C6_witness :
    registerSampleCall [⟨⟨1, 2⟩, 2⟩] [] 0 0 ⟨1, 2⟩ HshFragmentStage
      = some ([⟨⟨1, 2⟩, 34⟩], [⟨0, 0, 0⟩]) := by
  have h := (claim_C6_sampler_dedup [⟨⟨1, 2⟩, 2⟩] [] 0 0 ⟨1, 2⟩
    HshFragmentStage HshVertexStage (by decide)).1 0 ⟨⟨1, 2⟩, 2⟩ rfl rfl
  rw [h]
  decide

/-- Splitting the parameter loop: it either passes the whole prefix and
continues, or aborts inside the prefix with the suffix never examined. -/
theorem processParams_append (st : ParamState) (ps qs : List Param) :
    processParams st (ps ++ qs)
      = (match processParams st ps with
         | (true, st') => processParams st' qs
         | (false, st') => (false, st')) := by
  induction ps generalizing st with
  | nil => rfl
  | cons p rest ih =>
      rw [List.cons_append]
      cases p with
      | position name isFloat4 stage =>
          by_cases h : isFloat4 <;> simp [processParams, h, ih]
      | colorTarget name isFloat4 index stage =>
          rcases hc : checkColorTargetParm st name isFloat4 index with ⟨ok, st'⟩
          cases ok <;> simp [processParams, hc, ih]
      | otherOutput stage => simp [processParams, ih]
      | vertexBuffer vp =>
          rcases hc : checkVertexBufferParm st vp with ⟨ok, st'⟩
          cases ok <;> simp [processParams, hc, ih]
      | instanceBuffer vp =>
          rcases hc : checkVertexBufferParm st vp with ⟨ok, st'⟩
          cases ok <;> simp [processParams, hc, ih]
      | texture Stage tp =>
          rcases hc : checkTextureParm st tp Stage with ⟨ok, st'⟩
          cases ok <;> simp [processParams, hc, ih]
      | plainInput => simp [processParams, ih]

/-- An out-of-range vertex-buffer slot fails `CheckVertexBufferParm` and
the range diagnostic is in the stream. -/
theorem checkVertexBufferParm_out_of_range (st : ParamState)
    (p : VertexBufferParm)
    (h : p.index < 0 ∨ (HSH_MAX_VERTEX_BUFFERS : Int) ≤ p.index) :
    (checkVertexBufferParm st p).1 = false
    ∧ Diag.vertexBufferOutOfRange p.name
        ∈ (checkVertexBufferParm st p).2.Diags := by
  unfold checkVertexBufferParm
  have hr : (if p.index < 0 ∨ (HSH_MAX_VERTEX_BUFFERS : Int) ≤ p.index then
      ([.vertexBufferOutOfRange p.name] : List Diag) else [])
      = [.vertexBufferOutOfRange p.name] := if_pos h
  dsimp only
  rw [hr]
  rw [if_neg (by simp)]
  refine ⟨rfl, ?_⟩
  simp

/-- **C7.** A vertex-buffer parameter whose constant slot index lies
outside `[0, 32)` — in particular slot 32 — is reported with the
slot-range diagnostic, the parameter loop in `GenerateConsumer::run`
returns immediately, and no artifacts are produced for the program. -/
theorem claim_C7_vertex_buffer_slot_range (ps qs : List Param)
    (p : VertexBufferParm)
    (hrange : p.index < 0 ∨ (HSH_MAX_VERTEX_BUFFERS : Int) ≤ p.index)
    (hok : (processParams initParamState ps).1 = true) :
    programArtifacts (ps ++ .vertexBuffer p :: qs) = none
    ∧ Diag.vertexBufferOutOfRange p.name
        ∈ programDiags (ps ++ .vertexBuffer p :: qs) := by
  rcases hps : processParams initParamState ps with ⟨ok, st1⟩
  rw [hps] at hok
  subst hok
  rcases hchk : checkVertexBufferParm st1 p with ⟨okc, st2⟩
  have hco := checkVertexBufferParm_out_of_range st1 p hrange
  rw [hchk] at hco
  simp only at hco
  rcases hco with ⟨hfalse, hdiag⟩
  subst hfalse
  have hrun : processParams initParamState (ps ++ .vertexBuffer p :: qs)
      = (false, st2) := by
    rw [processParams_append, hps]
    simp only [processParams, hchk]
  constructor
  · unfold programArtifacts
    rw [hrun]
  · unfold programDiags
    rw [hrun]
    exact hdiag

/-- Witness for C7: a well-typed vertex buffer at slot 32 after an
otherwise valid parameter list. -/
theorem claim_C7_witness :
    programArtifacts [.vertexBuffer ⟨"a", true, true, 0⟩,
        .vertexBuffer ⟨"v", true, true, 32⟩] = none
    ∧ Diag.vertexBufferOutOfRange "v"
        ∈ programDiags [.vertexBuffer ⟨"a", true, true, 0⟩,
            .vertexBuffer ⟨"v", true, true, 32⟩] :=
  claim_C7_vertex_buffer_slot_range [.vertexBuffer ⟨"a", true, true, 0⟩] []
    ⟨"v", true, true, 32⟩ (Or.inr (by decide)) (by decide)

/-- **C8 counterexample.** Parameter `"a"` (slot 0) passes; parameter
`"b"` (wrong type, and slot 0 already taken) has BOTH of its failures
reported — not only the first — and `run` then returns at once, so the
out-of-range violation of the later parameter `"c"` is never surfaced:
validation does not continue past a failed parameter. -/
theorem claim_C8_counterexample :
    programDiags [.vertexBuffer ⟨"a", true, true, 0⟩,
        .vertexBuffer ⟨"b", false, true, 0⟩,
        .vertexBuffer ⟨"c", true, true, 40⟩]
      = [.badVertexBufferType "b", .vertexBufferDuplicate "b" "a"]
    ∧ programArtifacts [.vertexBuffer ⟨"a", true, true, 0⟩,
        .vertexBuffer ⟨"b", false, true, 0⟩,
        .vertexBuffer ⟨"c", true, true, 40⟩] = none := by
  constructor
  · decide
  · rfl

/-- **C8 (amended).** For a vertex-buffer parameter, every failed check
is reported — the two type checks form an `if`/`else if` chain
contributing at most one message, while the slot-range and duplicate-slot
checks report independently — and the parameter loop aborts at the first
parameter that fails any check, leaving all later parameters
unvalidated. -/
theorem claim_C8_reporting_and_abort (st : ParamState)
    (p : VertexBufferParm) (rest : List Param) :
    ((checkVertexBufferParm st p).2.Diags
      = st.Diags
        ++ (if !p.isStructOrClass then [.badVertexBufferType p.name]
            else if !p.recordCompatible then
              [.recordFieldIncompatible p.name]
            else [])
        ++ (if p.index < 0 ∨ (HSH_MAX_VERTEX_BUFFERS : Int) ≤ p.index then
              [.vertexBufferOutOfRange p.name]
            else [])
        ++ (match st.VertexBufferParms p.index with
            | some other => [.vertexBufferDuplicate p.name other]
            | none => []))
    ∧ ((checkVertexBufferParm st p).1 = false →
        processParams st (.vertexBuffer p :: rest)
          = (false, (checkVertexBufferParm st p).2)) := by
  constructor
  · unfold checkVertexBufferParm
    dsimp only
    rw [apply_ite (fun r : Bool × ParamState => r.2.Diags)]
    dsimp only
    rw [ite_self]
  · intro hfail
    rcases hchk : checkVertexBufferParm st p with ⟨ok, st'⟩
    rw [hchk] at hfail
    simp only at hfail
    subst hfail
    simp only [processParams, hchk]

/-- Witness for C8 (amended): the failing parameter `"b"` of the
counterexample input gets both its reports and stops the loop with the
later parameter unexamined. -/
theorem claim_C8_witness :
    (checkVertexBufferParm
        (processParams initParamState
          [.vertexBuffer ⟨"a", true, true, 0⟩]).2
        ⟨"b", false, true, 0⟩).2.Diags
      = [.badVertexBufferType "b", .vertexBufferDuplicate "b" "a"]
    ∧ processParams
        (processParams initParamState
          [.vertexBuffer ⟨"a", true, true, 0⟩]).2
        [.vertexBuffer ⟨"b", false, true, 0⟩,
         .vertexBuffer ⟨"c", true, true, 40⟩]
      = (false, (checkVertexBufferParm
          (processParams initParamState
            [.vertexBuffer ⟨"a", true, true, 0⟩]).2
          ⟨"b", false, true, 0⟩).2) := by
  constructor
  · have h := (claim_C8_reporting_and_abort
      (processParams initParamState [.vertexBuffer ⟨"a", true, true, 0⟩]).2
      ⟨"b", false, true, 0⟩ []).1
    rw [h]
    decide
  · exact (claim_C8_reporting_and_abort
      (processParams initParamState [.vertexBuffer ⟨"a", true, true, 0⟩]).2
      ⟨"b", false, true, 0⟩ [.vertexBuffer ⟨"c", true, true, 40⟩]).2
      (by decide)

/-- `bumpDeclRef` at the first matching entry. -/
theorem bumpDeclRef_split (od : Option String) (l1 l2 : List StmtEntry)
    (e : StmtEntry)
    (h1 : ∀ x ∈ l1, (x.stmt.isDeclStmt && x.origDecl == od) = false)
    (he : (e.stmt.isDeclStmt && e.origDecl == od) = true) :
    bumpDeclRef od (l1 ++ e :: l2)
      = some (l1 ++ { e with refCount := e.refCount + 1 } :: l2) := by
  induction l1 with
  | nil =>
      simp only [List.nil_append, bumpDeclRef]
      rw [if_pos he]
  | cons a t ih =>
      simp only [List.cons_append, bumpDeclRef, List.append_eq]
      rw [if_neg (by simp [h1 a (by simp)])]
      rw [ih (fun x hx => h1 x (by simp [hx]))]
      rfl

/-- `bumpDeclRef` finds nothing when no entry matches. -/
theorem bumpDeclRef_none (od : Option String) (l : List StmtEntry)
    (h : ∀ x ∈ l, (x.stmt.isDeclStmt && x.origDecl == od) = false) :
    bumpDeclRef od l = none := by
  induction l with
  | nil => rfl
  | cons a t ih =>
      simp only [bumpDeclRef]
      rw [if_neg (by simp [h a (by simp)])]
      rw [ih (fun x hx => h x (by simp [hx]))]
      rfl

/-- `dropDeclRef` at the first matching entry: decrement, and erase
exactly when the count hits zero. -/
theorem dropDeclRef_split (od : Option String) (l1 l2 : List StmtEntry)
    (e : StmtEntry)
    (h1 : ∀ x ∈ l1, (x.stmt.isDeclStmt && x.origDecl == od) = false)
    (he : (e.stmt.isDeclStmt && e.origDecl == od) = true) :
    dropDeclRef od (l1 ++ e :: l2)
      = if e.refCount - 1 = 0 then l1 ++ l2
        else l1 ++ { e with refCount := e.refCount - 1 } :: l2 := by
  induction l1 with
  | nil =>
      simp only [List.nil_append, dropDeclRef]
      rw [if_pos he]
  | cons a t ih =>
      simp only [List.cons_append, dropDeclRef, List.append_eq]
      rw [if_neg (by simp [h1 a (by simp)])]
      rw [ih (fun x hx => h1 x (by simp [hx]))]
      split <;> rfl

/-- `addStageStmt` leaves every other stage's statement list alone. -/
theorem addStageStmt_other (b : StagesBuilder) (S : StmtM) (Stage s : HshStage)
    (od : Option String) (h : s ≠ Stage) :
    (b.addStageStmt S Stage od).StageStmts s = b.StageStmts s := by
  unfold StagesBuilder.addStageStmt
  dsimp only
  rw [if_neg h]

/-- **C9.** Per-stage statement lists hold one reference-counted copy of
each lifted declaration: `addStageStmt` for a `DeclStmt` whose
originating variable already has an entry in the stage only increments
that entry's count (the statement sequence itself is unchanged, so the
declaration is emitted once), while a first add appends one entry with
count 1; `liftDeclStmt` removes the declaration from its origin stage
exactly when the decremented reference count reaches zero, otherwise it
just decrements. -/
theorem claim_C9_decl_refcount (b : StagesBuilder) (DS : StmtM)
    (od : Option String) (hDS : DS.isDeclStmt = true) :
    (∀ Stage l1 e l2, b.StageStmts Stage = l1 ++ e :: l2 →
      (∀ x ∈ l1, (x.stmt.isDeclStmt && x.origDecl == od) = false) →
      (e.stmt.isDeclStmt && e.origDecl == od) = true →
      (b.addStageStmt DS Stage od).StageStmts Stage
          = l1 ++ { e with refCount := e.refCount + 1 } :: l2
        ∧ ((b.addStageStmt DS Stage od).StageStmts Stage).map StmtEntry.stmt
          = (b.StageStmts Stage).map StmtEntry.stmt)
    ∧ (∀ Stage,
        (∀ x ∈ b.StageStmts Stage,
          (x.stmt.isDeclStmt && x.origDecl == od) = false) →
        (b.addStageStmt DS Stage od).StageStmts Stage
          = b.StageStmts Stage ++ [⟨DS, 1, od⟩])
    ∧ (∀ F T l1 e l2, F ≠ T → b.StageStmts F = l1 ++ e :: l2 →
        (∀ x ∈ l1, (x.stmt.isDeclStmt && x.origDecl == od) = false) →
        (e.stmt.isDeclStmt && e.origDecl == od) = true →
        (b.liftDeclStmt DS F T od).StageStmts F
          = if e.refCount - 1 = 0 then l1 ++ l2
            else l1 ++ { e with refCount := e.refCount - 1 } :: l2) := by
  refine ⟨?_, ?_, ?_⟩
  · intro Stage l1 e l2 hsplit h1 he
    have hb := bumpDeclRef_split od l1 l2 e h1 he
    unfold StagesBuilder.addStageStmt
    dsimp only
    rw [if_pos rfl, hDS]
    simp only [hsplit, hb, if_true]
    simp
  · intro Stage hall
    have hb := bumpDeclRef_none od (b.StageStmts Stage) hall
    unfold StagesBuilder.addStageStmt
    dsimp only
    rw [if_pos rfl, hDS]
    simp only [hb, if_true]
  · intro F T l1 e l2 hFT hsplit h1 he
    unfold StagesBuilder.liftDeclStmt
    dsimp only
    rw [if_pos rfl]
    rw [addStageStmt_other b DS T F od hFT]
    rw [hsplit]
    exact dropDeclRef_split od l1 l2 e h1 he

/-- Witness for C9: a declaration added twice to the Vertex stage is kept
once with count 2; lifting it once decrements, lifting again removes it
from the origin stage. -/
theorem claim_C9_witness :
    (((StagesBuilder.init 35).addStageStmt (.declStmt "x" none)
        HshVertexStage (some "x")).addStageStmt (.declStmt "x" none)
        HshVertexStage (some "x")).StageStmts HshVertexStage
      = [⟨.declStmt "x" none, 2, some "x"⟩] := by
  have hbase : ((StagesBuilder.init 35).addStageStmt (.declStmt "x" none)
      HshVertexStage (some "x")).StageStmts HshVertexStage
      = [] ++ ⟨.declStmt "x" none, 1, some "x"⟩ :: [] := by decide
  have h := ((claim_C9_decl_refcount
      ((StagesBuilder.init 35).addStageStmt (.declStmt "x" none)
        HshVertexStage (some "x"))
      (.declStmt "x" none) (some "x") (by decide)).1
    HshVertexStage [] ⟨.declStmt "x" none, 1, some "x"⟩ [] hbase
    (by intro x hx; simp at hx) (by decide)).1
  rw [h]
  decide

/-- **C1.** `StagesBuilder::VisitExpr` for a value of stage `F` consumed
at a strictly later active stage `T` (the expression fresh to every
record): for a non-Host origin, each consecutive pair `(Sᵢ, Sᵢ₊₁)` of
active stages the relay loop walks gets an assignment, appended to
`Sᵢ`'s statements, of the value (first hop) or the previous record's
consumer field (later hops) into the pair's producer field; the chain's
consumer sides reach `T`; the host records are untouched and no stage
outside the chain's producer sides gains a statement; the returned
expression is a consumer-field read of the record for `T`.  For a Host
origin, a single Host-to-`T` record field is created with its producer
assignment in the Host statement list, the inter-stage records see no
relays at all, and the returned expression reads that record's consumer
field. -/
theorem claim_C1_interstage_chain (b : StagesBuilder) (E : ExprM)
    (F T : Int) (hF0 : 0 ≤ F) (hT : T ≠ HshNoStage) (hlt : F < T)
    (hTbit : b.UseStages.testBit T.toNat = true)
    (hfreshI : ∀ d, ∀ p ∈ (b.InterStageRecords d).Fields, p.1 ≠ E)
    (hfreshH : ∀ p ∈ (b.HostToStageRecords T).Fields, p.1 ≠ E) :
    (F = HshHostStage →
      (∃ f, (b.visitExpr E F T).1 = .interfaceField true T false f
        ∧ (E, f) ∈ ((b.visitExpr E F T).2.HostToStageRecords T).Fields)
      ∧ (∃ f, StmtM.assign (.interfaceField true T true f) E
          ∈ ((b.visitExpr E F T).2.StageStmts HshHostStage).map
              StmtEntry.stmt)
      ∧ ((b.visitExpr E F T).2.InterStageRecords = b.InterStageRecords)
      ∧ (∀ s, s ≠ HshHostStage →
          (b.visitExpr E F T).2.StageStmts s = b.StageStmts s)
      ∧ (∀ d, d ≠ T →
          (b.visitExpr E F T).2.HostToStageRecords d
            = b.HostToStageRecords d))
    ∧ (F ≠ HshHostStage →
      (∃ f, (b.visitExpr E F T).1 = .interfaceField false T false f
        ∧ (E, f) ∈ ((b.visitExpr E F T).2.InterStageRecords T).Fields)
      ∧ (∀ P ∈ chainPairs b.UseStages F (F + 1) (T - F).toNat,
          ∃ f rhs,
            StmtM.assign (.interfaceField false P.2 true f) rhs
                ∈ ((b.visitExpr E F T).2.StageStmts P.1).map StmtEntry.stmt
              ∧ (P.1 = F → rhs = E)
              ∧ (P.1 ≠ F → ∃ g, rhs = .interfaceField false P.1 false g))
      ∧ (T ∈ (chainPairs b.UseStages F (F + 1) (T - F).toNat).map Prod.snd)
      ∧ ((b.visitExpr E F T).2.HostToStageRecords = b.HostToStageRecords)
      ∧ (∀ s,
          s ∉ (chainPairs b.UseStages F (F + 1) (T - F).toNat).map Prod.fst →
          (b.visitExpr E F T).2.StageStmts s = b.StageStmts s)) := by
  have hFT : F ≠ T := Int.ne_of_lt hlt
  have hFn : F ≠ HshNoStage := by
    intro h
    rw [h] at hF0
    exact absurd hF0 (by decide)
  have hcond : ¬(F = T ∨ F = HshNoStage ∨ T = HshNoStage) := by
    push_neg
    exact ⟨hFT, hFn, hT⟩
  constructor
  · -- Host origin
    intro hFH
    subst hFH
    unfold StagesBuilder.visitExpr
    rw [if_neg hcond]
    dsimp only
    rw [if_neg (not_not_intro rfl), if_pos rfl]
    rw [producerRef_fresh _ _ _ _ hfreshH]
    dsimp only
    set len := (b.HostToStageRecords T).Fields.length with hlen
    set R' : InterfaceRecord :=
      { b.HostToStageRecords T with
          Fields := (b.HostToStageRecords T).Fields ++ [(E, len)] }
      with hR'
    set bh := (setHost b T R').addStageStmt
      (.assign (.interfaceField true T true len) E) HshHostStage with hbh
    have hbhT : bh.HostToStageRecords T = R' := by
      rw [hbh, (addStageStmt_frame _ _ _ _).2.2, setHost_get, if_pos rfl]
    rcases consumerRef_shape (bh.HostToStageRecords T) true T E
      with ⟨f, R'', hcr, hmemf, _⟩
    rw [hcr]
    dsimp only
    refine ⟨⟨f, rfl, ?_⟩, ⟨len, ?_⟩, rfl, ?_, ?_⟩
    · rw [setHost_get, if_pos rfl]
      exact hmemf
    · show StmtM.assign (.interfaceField true T true len) E
          ∈ (((setHost b T R').addStageStmt
              (.assign (.interfaceField true T true len) E)
              HshHostStage).StageStmts HshHostStage).map StmtEntry.stmt
      apply addStageStmt_mem_self
      rfl
    · intro s hs
      exact addStageStmt_untouched _ _ _ _ _ hs
    · intro d hd
      rw [setHost_get, if_neg hd, hbh, (addStageStmt_frame _ _ _ _).2.2,
        setHost_get, if_neg hd]
  · -- non-Host origin: relay chain
    intro hFH
    unfold StagesBuilder.visitExpr
    rw [if_neg hcond]
    dsimp only
    rw [if_pos hFH, if_neg hFH]
    set n := (T - F).toNat with hn
    set b1 := relaySteps b E F F (F + 1) n with hb1
    have hchain := relaySteps_spec E F n b F (F + 1) (lt_add_one F)
      (fun d _ => hfreshI d)
    rcases relaySteps_mono E F n b F (F + 1) with ⟨hU, hH, _, h4⟩
    have hTreach : T ∈ (chainPairs b.UseStages F (F + 1) n).map Prod.snd := by
      apply chainPairs_snd_mem b.UseStages n F (F + 1) T (by omega) hTbit
        (Int.add_one_le_iff.2 hlt)
      rw [hn]
      rw [Int.toNat_of_nonneg (by omega)]
      omega
    have hmemT : ∃ g, (E, g) ∈ (b1.InterStageRecords T).Fields := by
      rcases List.mem_map.1 hTreach with ⟨P, hP, hPT⟩
      rcases (hchain P hP).2 with ⟨g, hg⟩
      exact ⟨g, by rw [← hPT]; exact hg⟩
    rcases consumerRef_shape (b1.InterStageRecords T) false T E
      with ⟨f, R'', hcr, hmemf, _⟩
    rw [hcr]
    dsimp only
    refine ⟨⟨f, rfl, ?_⟩, ?_, hTreach, ?_, ?_⟩
    · rw [setInter_get, if_pos rfl]
      exact hmemf
    · intro P hP
      exact (hchain P hP).1
    · exact hH
    · intro s hs
      exact relaySteps_untouched E F n b F (F + 1) s hs

/-- The constructor-initialized record arrays hold no fields yet. -/
theorem initInterRecords_fields (mask : Nat) : ∀ (n : Nat) (S : Int)
    (recs : HshStage → InterfaceRecord),
    (∀ d, (recs d).Fields = []) →
    ∀ d, ((initInterRecords mask n S recs) d).Fields = []
  | 0, _, _, h, d => h d
  | n + 1, S, recs, h, d => by
      unfold initInterRecords
      by_cases hbit : mask.testBit (6 - (n + 1 : Nat) : Int).toNat
      · rw [if_pos hbit]
        apply initInterRecords_fields
        intro d'
        dsimp only
        split
        · rfl
        · exact h d'
      · rw [if_neg hbit]
        exact initInterRecords_fields mask n S recs h d

theorem initHostRecords_fields (mask : Nat) : ∀ (n : Nat)
    (recs : HshStage → InterfaceRecord),
    (∀ d, (recs d).Fields = []) →
    ∀ d, ((initHostRecords mask n recs) d).Fields = []
  | 0, _, h, d => h d
  | n + 1, recs, h, d => by
      unfold initHostRecords
      apply initHostRecords_fields
      intro d'
      dsimp only
      split
      · dsimp only
        split
        · rfl
        · exact h d'
      · exact h d'

theorem init_fields (mask : Nat) :
    (∀ d, ((StagesBuilder.init mask).InterStageRecords d).Fields = [])
    ∧ (∀ d, ((StagesBuilder.init mask).HostToStageRecords d).Fields = []) :=
  ⟨initInterRecords_fields mask 4 HshVertexStage _ (fun _ => rfl),
   initHostRecords_fields mask 5 _ (fun _ => rfl)⟩

/-- Witness for C1: a Vertex-stage value consumed at Fragment in a
program with active stages {Host, Vertex, Fragment} (mask 35): the chain
reaches Fragment and the returned expression is a consumer-field read of
the Vertex-to-Fragment record. -/
theorem claim_C1_witness :
    ((5 : Int) ∈ (chainPairs 35 1 2 4).map Prod.snd)
    ∧ (∃ f, ((StagesBuilder.init 35).visitExpr (.declRef "v") 1 5).1
        = .interfaceField false 5 false f) := by
  have h := claim_C1_interstage_chain (StagesBuilder.init 35) (.declRef "v")
    1 5 (by decide) (by decide) (by decide) (by decide)
    (by
      intro d p hp
      rw [(init_fields 35).1 d] at hp
      simp at hp)
    (by
      intro p hp
      rw [(init_fields 35).2 5] at hp
      simp at hp)
  rcases h.2 (by decide) with ⟨hres, _, hreach, _, _⟩
  rcases hres with ⟨f, hf, _⟩
  exact ⟨hreach, ⟨f, hf⟩⟩

end Hsh
